import Mathlib

/- A shallow embedding of client/src/models/Dropper.js from the droppr
repository.  FileStream is embedded as a state machine whose step function
sendMessage is one invocation of the private method of the same name
(the handler registered for both the open and the bufferedamountlow
events of the data channel); Dropper is embedded over a list of such
machines together with the promise plumbing of its awaitFileStreams
method and the relaying of peer events done in its constructor. -/

/-- A file handed to a sender: name, MIME type and content bytes. -/
structure File where
  name : String
  type : String
  data : List Nat
deriving DecidableEq

/-- The size of a JS File object is the byte length of its content. -/
def File.size (f : File) : Nat := f.data.length

/-- One message handed to the data channel by a FileStream: the fileinfo
control record, one binary payload chunk, or the done control record. -/
inductive Msg where
  | fileinfoMsg (name : String) (size : Nat) (type : String)
  | payload (bytes : List Nat)
  | doneMsg
deriving DecidableEq

/-- The values of the private state field of a FileStream. -/
inductive StreamState where
  | fileinfo
  | send
  | sending
  | done
deriving DecidableEq

/-- The observable state of one FileStream: the file being sent, the
state field, the offset, the transcript of messages handed to the data
channel in order, and the number of local done events the stream has
dispatched on itself so far. -/
structure FileStream where
  file : File
  state : StreamState
  offset : Nat
  sent : List Msg
  localDone : Nat
deriving DecidableEq

/-- A FileStream as built by the constructor: state fileinfo, offset 0,
nothing sent yet, no local done event dispatched. -/
def initStream (f : File) : FileStream :=
  { file := f, state := .fileinfo, offset := 0, sent := [], localDone := 0 }

/-- One invocation of FileStream sendMessage.  The parameter msgSize is
the module constant taken from the environment; fail injects a thrown
error at the fallible operation of the branch taken (the channel write
in the fileinfo and done branches, the asynchronous byte read or the
channel write in the chunk branch).  The try/catch of the source only
logs, so a failing invocation returns the state reached at the point of
the throw.  In the chunk branch the source sets state to sending and
advances offset before the suspension point, then appends the payload
and restores state send on success. -/
def sendMessage (msgSize : Nat) (fs : FileStream) (fail : Bool) : FileStream :=
  match fs.state with
  | .fileinfo =>
      if fail then fs
      else { fs with
              sent := fs.sent ++ [Msg.fileinfoMsg fs.file.name fs.file.size fs.file.type],
              state := .send }
  | .send =>
      if fs.file.size ≤ fs.offset then
        if fail then fs
        else { fs with sent := fs.sent ++ [Msg.doneMsg], state := .done }
      else
        if fail then
          { fs with state := .sending,
                    offset := min (fs.offset + msgSize) fs.file.size }
        else
          { fs with state := .send,
                    offset := min (fs.offset + msgSize) fs.file.size,
                    sent := fs.sent ++ [Msg.payload ((fs.file.data.drop fs.offset).take
                              (min (fs.offset + msgSize) fs.file.size - fs.offset))] }
  | .sending => fs
  | .done => fs

/-- The states a FileStream can be driven into from its initial state by
any sequence of channel events, with or without injected errors. -/
inductive Reachable (msgSize : Nat) (f : File) : FileStream → Prop where
  | init : Reachable msgSize f (initStream f)
  | step : ∀ fs fail, Reachable msgSize f fs → Reachable msgSize f (sendMessage msgSize fs fail)

/-- An error-free run of a single FileStream: the state after n channel
events none of which throws. -/
def run (msgSize : Nat) (f : File) : Nat → FileStream
  | 0 => initStream f
  | n + 1 => sendMessage msgSize (run msgSize f n) false

/-- The fileinfo records the Dropper constructor accumulates. -/
structure FileInfoRec where
  name : String
  size : Nat
  type : String
deriving DecidableEq

/-- The observable state of a Dropper: its file streams, the drop
identifier, the fileinfo list and totalSize built by the constructor,
the names of the events it has dispatched on itself in order, and
whether the Promise.all of awaitFileStreams has settled. -/
structure Dropper where
  fileStreams : List FileStream
  id : Option String
  fileinfo : List FileInfoRec
  totalSize : Nat
  dispatched : List String
  settled : Bool
deriving DecidableEq

/-- The per-stream promise of awaitFileStreams resolves when the stream
dispatches its local done event, on which resolve is registered. -/
def promiseResolved (fs : FileStream) : Bool := fs.localDone != 0

/-- The reject function of the per-stream promise is never invoked by
any code path of the source, so the promise is never rejected. -/
def promiseRejected (_fs : FileStream) : Bool := false

/-- The continuation of awaitFileStreams: once Promise.all settles, the
Dropper dispatches failed if some per-stream promise rejected, done if
all resolved, each at most once. -/
def dropperCheck (d : Dropper) : Dropper :=
  if d.settled then d
  else if d.fileStreams.any promiseRejected then
    { d with dispatched := d.dispatched ++ ["failed"], settled := true }
  else if d.fileStreams.all promiseResolved then
    { d with dispatched := d.dispatched ++ ["done"], settled := true }
  else d

/-- The Dropper constructor: one FileStream per file, the fileinfo list
and totalSize accumulated over the files, and awaitFileStreams started
(for an empty batch Promise.all settles at once). -/
def mkDropper (files : List File) : Dropper :=
  dropperCheck
    { fileStreams := files.map initStream,
      id := none,
      fileinfo := files.map (fun f => FileInfoRec.mk f.name f.size f.type),
      totalSize := (files.map File.size).sum,
      dispatched := [],
      settled := false }

/-- Deliver one channel event, with error injection, to the stream at
index i of the list. -/
def updateStream (msgSize : Nat) (l : List FileStream) (i : Nat) (fail : Bool) :
    List FileStream :=
  match l, i with
  | [], _ => []
  | fs :: rest, 0 => sendMessage msgSize fs fail :: rest
  | fs :: rest, Nat.succ n => fs :: updateStream msgSize rest n fail

/-- An event relayed from the peer collaborator. -/
inductive PeerEvent where
  | registered (id : String)
  | connected
  | disconnected
deriving DecidableEq

/-- What the Dropper constructor subscribes on the peer: registered
captures the identifier and dispatches idchanged; connected and
disconnected are re-dispatched under the same name. -/
def handlePeerEvent (d : Dropper) (e : PeerEvent) : Dropper :=
  match e with
  | .registered i => { d with id := some i, dispatched := d.dispatched ++ ["idchanged"] }
  | .connected => { d with dispatched := d.dispatched ++ ["connected"] }
  | .disconnected => { d with dispatched := d.dispatched ++ ["disconnected"] }

/-- One external event delivered to a Dropper system: a channel event on
stream i (with error injection) followed by the promise continuation, or
a peer event. -/
inductive DEvent where
  | streamEvent (i : Nat) (fail : Bool)
  | peerEvent (e : PeerEvent)
deriving DecidableEq

/-- One step of the whole Dropper system. -/
def dropperStep (msgSize : Nat) (d : Dropper) (ev : DEvent) : Dropper :=
  match ev with
  | .streamEvent i fail =>
      dropperCheck { d with fileStreams := updateStream msgSize d.fileStreams i fail }
  | .peerEvent e => handlePeerEvent d e

/-- Run a Dropper system over a sequence of external events. -/
def runDropper (msgSize : Nat) (d : Dropper) (evs : List DEvent) : Dropper :=
  evs.foldl (dropperStep msgSize) d

/-- The bytesSent accessor of Dropper: the loop summing the offsets of
the file streams. -/
def Dropper.bytesSent (d : Dropper) : Nat :=
  d.fileStreams.foldl (fun acc fs => acc + fs.offset) 0

/-- Transcript shape of an error-free run sitting in state send: the
fileinfo record, then payload chunks that concatenate to the first
offset bytes of the file, each at most msgSize long. -/
def SendInv (msgSize : Nat) (f : File) (fs : FileStream) : Prop :=
  ∃ ps : List (List Nat),
    fs.sent = Msg.fileinfoMsg f.name f.size f.type :: ps.map Msg.payload ∧
    ps.flatten = f.data.take fs.offset ∧
    ∀ p ∈ ps, p.length ≤ msgSize

/-- Transcript shape of a finished error-free run: the fileinfo record,
then payload chunks that concatenate to the whole file, each at most
msgSize long, then the done control message. -/
def DoneInv (msgSize : Nat) (f : File) (fs : FileStream) : Prop :=
  ∃ ps : List (List Nat),
    fs.sent = Msg.fileinfoMsg f.name f.size f.type ::
      (ps.map Msg.payload ++ [Msg.doneMsg]) ∧
    ps.flatten = f.data ∧
    ∀ p ∈ ps, p.length ≤ msgSize

/- Basic step lemmas for sendMessage. -/

lemma sendMessage_file (msgSize : Nat) (fs : FileStream) (fail : Bool) :
    (sendMessage msgSize fs fail).file = fs.file := by
  rcases fs with ⟨f, st, off, sent, ld⟩
  cases st <;> simp [sendMessage] <;> split_ifs <;> rfl

lemma sendMessage_localDone (msgSize : Nat) (fs : FileStream) (fail : Bool) :
    (sendMessage msgSize fs fail).localDone = fs.localDone := by
  rcases fs with ⟨f, st, off, sent, ld⟩
  cases st <;> simp [sendMessage] <;> split_ifs <;> rfl

lemma sendMessage_offset_mono (msgSize : Nat) (fs : FileStream) (fail : Bool) :
    fs.offset ≤ (sendMessage msgSize fs fail).offset := by
  rcases fs with ⟨f, st, off, sent, ld⟩
  cases st <;> simp [sendMessage] <;> split_ifs <;> simp_all <;> omega

lemma sendMessage_offset_le_size (msgSize : Nat) (fs : FileStream) (fail : Bool)
    (h : fs.offset ≤ fs.file.size) :
    (sendMessage msgSize fs fail).offset ≤ (sendMessage msgSize fs fail).file.size := by
  rcases fs with ⟨f, st, off, sent, ld⟩
  cases st <;> simp_all [sendMessage] <;> split_ifs <;> simp_all

lemma sendMessage_of_sending (msgSize : Nat) (fs : FileStream) (fail : Bool)
    (h : fs.state = StreamState.sending) : sendMessage msgSize fs fail = fs := by
  rcases fs with ⟨f, st, off, sent, ld⟩
  cases st <;> simp_all [sendMessage]

lemma sendMessage_of_done (msgSize : Nat) (fs : FileStream) (fail : Bool)
    (h : fs.state = StreamState.done) : sendMessage msgSize fs fail = fs := by
  rcases fs with ⟨f, st, off, sent, ld⟩
  cases st <;> simp_all [sendMessage]

/- Reachability invariants for a single FileStream. -/

lemma reachable_file (msgSize : Nat) (f : File) (fs : FileStream)
    (h : Reachable msgSize f fs) : fs.file = f := by
  induction h with
  | init => rfl
  | step fs fail hr ih => rw [sendMessage_file]; exact ih

lemma reachable_offset_le (msgSize : Nat) (f : File) (fs : FileStream)
    (h : Reachable msgSize f fs) : fs.offset ≤ fs.file.size := by
  induction h with
  | init => simp [initStream]
  | step fs fail hr ih => exact sendMessage_offset_le_size msgSize fs fail ih

lemma reachable_done_count (msgSize : Nat) (f : File) (fs : FileStream)
    (h : Reachable msgSize f fs) :
    fs.sent.count Msg.doneMsg = if fs.state = StreamState.done then 1 else 0 := by
  induction h with
  | init => simp [initStream]
  | step fs fail hr ih =>
    rcases fs with ⟨g, st, off, sent, ld⟩
    cases st <;> simp_all [sendMessage] <;> split_ifs <;>
      simp_all [List.count_append]

/-- C7: while a FileStream is in the sending state (entered before the
asynchronous byte read of a chunk and left only when that chunk's write
completes), any channel event — open or bufferedamountlow, with or
without an injected error — is a no-op: no state change, no offset
change, no message handed to the channel. -/
theorem fileStream_sending_noop (msgSize : Nat) (fs : FileStream) (fail : Bool)
    (h : fs.state = StreamState.sending) :
    sendMessage msgSize fs fail = fs :=
  sendMessage_of_sending msgSize fs fail h

/-- Witness for fileStream_sending_noop at a concrete mid-chunk stream. -/
theorem fileStream_sending_noop_witness :
    (FileStream.mk (File.mk "a" "t" [1, 2]) StreamState.sending 1 [] 0).state
        = StreamState.sending ∧
    sendMessage 1 (FileStream.mk (File.mk "a" "t" [1, 2]) StreamState.sending 1 [] 0) true
      = FileStream.mk (File.mk "a" "t" [1, 2]) StreamState.sending 1 [] 0 :=
  ⟨rfl, fileStream_sending_noop 1
    (FileStream.mk (File.mk "a" "t" [1, 2]) StreamState.sending 1 [] 0) true rfl⟩

/-- C4 (counterexample): after the fileinfo message is sent, the stream
sits in state send with offset 0; an injected read/write error on the
next invocation leaves it in state sending with offset advanced to 1, so
the handler does NOT return with the state unchanged from entry. -/
theorem fileStream_error_state_change :
    (sendMessage 1 (initStream (File.mk "a" "t" [10, 20])) false).state
        = StreamState.send ∧
    (sendMessage 1 (initStream (File.mk "a" "t" [10, 20])) false).offset = 0 ∧
    (sendMessage 1 (sendMessage 1 (initStream (File.mk "a" "t" [10, 20])) false) true).state
        = StreamState.sending ∧
    (sendMessage 1 (sendMessage 1 (initStream (File.mk "a" "t" [10, 20])) false) true).offset
        = 1 := by
  decide

/-- C4 (amended): an error while reading a byte range or writing to the
channel during one handler invocation is caught at the handler boundary
and not re-thrown: nothing is appended to the channel transcript, no
local done event is dispatched and the file is unchanged.  The state and
offset are unchanged from handler entry in every branch except the chunk
branch, where the handler has already moved state from send to sending
and advanced offset before the failing operation; there the stream then
ignores every further event, so it stalls. -/
theorem fileStream_error_swallowed (msgSize : Nat) (fs : FileStream) :
    (sendMessage msgSize fs true).sent = fs.sent ∧
    (sendMessage msgSize fs true).localDone = fs.localDone ∧
    (sendMessage msgSize fs true).file = fs.file ∧
    ((sendMessage msgSize fs true).state = fs.state ∧
        (sendMessage msgSize fs true).offset = fs.offset ∨
      fs.state = StreamState.send ∧
        (sendMessage msgSize fs true).state = StreamState.sending ∧
        ∀ fail, sendMessage msgSize (sendMessage msgSize fs true) fail
          = sendMessage msgSize fs true) := by
  refine ⟨?_, sendMessage_localDone msgSize fs true, sendMessage_file msgSize fs true, ?_⟩
  · rcases fs with ⟨f, st, off, sent, ld⟩
    cases st
    · rfl
    · simp only [sendMessage]; split_ifs <;> rfl
    · rfl
    · rfl
  · rcases fs with ⟨f, st, off, sent, ld⟩
    cases st
    · left; simp [sendMessage]
    · by_cases h : f.size ≤ off
      · left; simp [sendMessage, h]
      · right
        refine ⟨rfl, ?_, ?_⟩
        · simp [sendMessage, h]
        · intro fail
          apply sendMessage_of_sending
          simp [sendMessage, h]
    · left; simp [sendMessage]
    · left; simp [sendMessage]

/-- C5: for a reachable FileStream, offset never exceeds file.size; one
handler invocation never decreases offset; offset changes only in the
chunk transition (state send with offset < file.size), where it advances
to min (offset + msgSize) file.size — exactly the length of the slice
computed there; and on a successful such invocation that slice is the
payload handed to the channel, its length the exact advance. -/
theorem fileStream_offset_invariant (msgSize : Nat) (f : File) (fs : FileStream)
    (h : Reachable msgSize f fs) :
    fs.offset ≤ fs.file.size ∧
    ∀ fail : Bool,
      fs.offset ≤ (sendMessage msgSize fs fail).offset ∧
      (sendMessage msgSize fs fail).offset ≤ fs.file.size ∧
      ((sendMessage msgSize fs fail).offset ≠ fs.offset →
        fs.state = StreamState.send ∧ fs.offset < fs.file.size ∧
        (sendMessage msgSize fs fail).offset = min (fs.offset + msgSize) fs.file.size ∧
        (fail = false →
          (sendMessage msgSize fs fail).sent = fs.sent ++
            [Msg.payload ((fs.file.data.drop fs.offset).take
              (min (fs.offset + msgSize) fs.file.size - fs.offset))] ∧
          ((fs.file.data.drop fs.offset).take
              (min (fs.offset + msgSize) fs.file.size - fs.offset)).length
            = (sendMessage msgSize fs fail).offset - fs.offset)) := by
  have hle := reachable_offset_le msgSize f fs h
  refine ⟨hle, fun fail => ⟨sendMessage_offset_mono msgSize fs fail, ?_, ?_⟩⟩
  · have hb := sendMessage_offset_le_size msgSize fs fail hle
    rwa [sendMessage_file] at hb
  · intro hne
    rcases fs with ⟨g, st, off, sent, ld⟩
    have hle2 : off ≤ g.data.length := hle
    cases st
    · cases fail <;> simp [sendMessage] at hne
    · by_cases hsz : g.size ≤ off
      · cases fail <;> simp [sendMessage, hsz] at hne
      · refine ⟨rfl, Nat.lt_of_not_le hsz, ?_, ?_⟩
        · cases fail <;> simp [sendMessage, hsz]
        · intro hfail
          subst hfail
          have hsz2 : ¬g.data.length ≤ off := hsz
          constructor
          · simp [sendMessage, hsz]
          · simp [sendMessage, hsz2, File.size]
            omega
    · simp [sendMessage] at hne
    · simp [sendMessage] at hne

/-- C6: for a reachable FileStream, the done control message appears at
most once in the channel transcript, and an invocation that appends it
does so only when offset equals file.size at that moment. -/
theorem fileStream_done_once (msgSize : Nat) (f : File) (fs : FileStream)
    (h : Reachable msgSize f fs) :
    fs.sent.count Msg.doneMsg ≤ 1 ∧
    ∀ fail : Bool,
      fs.sent.count Msg.doneMsg < (sendMessage msgSize fs fail).sent.count Msg.doneMsg →
      fs.offset = fs.file.size := by
  have hc := reachable_done_count msgSize f fs h
  have hle := reachable_offset_le msgSize f fs h
  constructor
  · rw [hc]; split_ifs <;> simp
  · intro fail hlt
    rcases fs with ⟨g, st, off, sent, ld⟩
    cases st
    · cases fail <;> simp [sendMessage, List.count_append] at hlt
    · by_cases hsz : g.size ≤ off
      · exact le_antisymm hle hsz
      · cases fail <;> simp [sendMessage, hsz, List.count_append] at hlt
    · simp [sendMessage] at hlt
    · simp [sendMessage] at hlt

/-- Witness for fileStream_offset_invariant at the initial stream of a
concrete one-byte file with message size 1. -/
theorem fileStream_offset_invariant_witness :
    Reachable 1 (File.mk "a" "t" [7]) (initStream (File.mk "a" "t" [7])) ∧
    ((initStream (File.mk "a" "t" [7])).offset
        ≤ (initStream (File.mk "a" "t" [7])).file.size ∧
      ∀ fail : Bool,
        (initStream (File.mk "a" "t" [7])).offset
            ≤ (sendMessage 1 (initStream (File.mk "a" "t" [7])) fail).offset ∧
        (sendMessage 1 (initStream (File.mk "a" "t" [7])) fail).offset
            ≤ (initStream (File.mk "a" "t" [7])).file.size ∧
        ((sendMessage 1 (initStream (File.mk "a" "t" [7])) fail).offset
              ≠ (initStream (File.mk "a" "t" [7])).offset →
          (initStream (File.mk "a" "t" [7])).state = StreamState.send ∧
          (initStream (File.mk "a" "t" [7])).offset
              < (initStream (File.mk "a" "t" [7])).file.size ∧
          (sendMessage 1 (initStream (File.mk "a" "t" [7])) fail).offset
              = min ((initStream (File.mk "a" "t" [7])).offset + 1)
                  (initStream (File.mk "a" "t" [7])).file.size ∧
          (fail = false →
            (sendMessage 1 (initStream (File.mk "a" "t" [7])) fail).sent
                = (initStream (File.mk "a" "t" [7])).sent ++
              [Msg.payload (((initStream (File.mk "a" "t" [7])).file.data.drop
                  (initStream (File.mk "a" "t" [7])).offset).take
                (min ((initStream (File.mk "a" "t" [7])).offset + 1)
                    (initStream (File.mk "a" "t" [7])).file.size
                  - (initStream (File.mk "a" "t" [7])).offset))] ∧
            (((initStream (File.mk "a" "t" [7])).file.data.drop
                  (initStream (File.mk "a" "t" [7])).offset).take
                (min ((initStream (File.mk "a" "t" [7])).offset + 1)
                    (initStream (File.mk "a" "t" [7])).file.size
                  - (initStream (File.mk "a" "t" [7])).offset)).length
              = (sendMessage 1 (initStream (File.mk "a" "t" [7])) fail).offset
                  - (initStream (File.mk "a" "t" [7])).offset))) :=
  ⟨Reachable.init,
    fileStream_offset_invariant 1 (File.mk "a" "t" [7])
      (initStream (File.mk "a" "t" [7])) Reachable.init⟩

/-- Witness for fileStream_done_once at the initial stream of a concrete
one-byte file with message size 1. -/
theorem fileStream_done_once_witness :
    Reachable 1 (File.mk "a" "t" [7]) (initStream (File.mk "a" "t" [7])) ∧
    ((initStream (File.mk "a" "t" [7])).sent.count Msg.doneMsg ≤ 1 ∧
      ∀ fail : Bool,
        (initStream (File.mk "a" "t" [7])).sent.count Msg.doneMsg
            < (sendMessage 1 (initStream (File.mk "a" "t" [7])) fail).sent.count Msg.doneMsg →
        (initStream (File.mk "a" "t" [7])).offset
            = (initStream (File.mk "a" "t" [7])).file.size) :=
  ⟨Reachable.init,
    fileStream_done_once 1 (File.mk "a" "t" [7])
      (initStream (File.mk "a" "t" [7])) Reachable.init⟩

/-- C2 (code evaluation): a complete, error-free run of a one-byte file
with message size 1 reaches state done and has sent the done control
message on the channel exactly once, yet the stream has dispatched zero
local done events — the source never calls dispatchEvent, contradicting
its own documentation and leaving Dropper.awaitFileStreams waiting. -/
theorem fileStream_no_local_done_event :
    (run 1 (File.mk "a" "t" [42]) 3).state = StreamState.done ∧
    (run 1 (File.mk "a" "t" [42]) 3).sent.count Msg.doneMsg = 1 ∧
    (run 1 (File.mk "a" "t" [42]) 3).localDone = 0 := by
  decide

/- Branch evaluation lemmas for error-free invocations. -/

lemma sendMessage_fileinfo_step (msgSize : Nat) (fs : FileStream)
    (hst : fs.state = StreamState.fileinfo) :
    sendMessage msgSize fs false
      = { fs with sent := fs.sent ++ [Msg.fileinfoMsg fs.file.name fs.file.size fs.file.type],
                  state := StreamState.send } := by
  rcases fs with ⟨g, st, off, sent, ld⟩
  cases st <;> simp_all [sendMessage]

lemma sendMessage_send_done (msgSize : Nat) (fs : FileStream)
    (hst : fs.state = StreamState.send) (hsz : fs.file.size ≤ fs.offset) :
    sendMessage msgSize fs false
      = { fs with sent := fs.sent ++ [Msg.doneMsg], state := StreamState.done } := by
  rcases fs with ⟨g, st, off, sent, ld⟩
  cases st <;> simp_all [sendMessage]

lemma sendMessage_send_chunk (msgSize : Nat) (fs : FileStream)
    (hst : fs.state = StreamState.send) (hsz : ¬fs.file.size ≤ fs.offset) :
    sendMessage msgSize fs false
      = { fs with state := StreamState.send,
                  offset := min (fs.offset + msgSize) fs.file.size,
                  sent := fs.sent ++ [Msg.payload ((fs.file.data.drop fs.offset).take
                    (min (fs.offset + msgSize) fs.file.size - fs.offset))] } := by
  rcases fs with ⟨g, st, off, sent, ld⟩
  cases st <;> simp_all [sendMessage]

/-- The invariant of an error-free run: after any number of events the
stream is announcing fileinfo, mid-transfer with a well-formed prefix
transcript, or finished with the full transcript. -/
lemma run_inv (msgSize : Nat) (f : File) (n : Nat) :
    (run msgSize f n).file = f ∧
    (run msgSize f n).offset ≤ f.size ∧
    (((run msgSize f n).state = StreamState.fileinfo ∧ (run msgSize f n).offset = 0 ∧
        (run msgSize f n).sent = []) ∨
      ((run msgSize f n).state = StreamState.send ∧ SendInv msgSize f (run msgSize f n)) ∨
      ((run msgSize f n).state = StreamState.done ∧ (run msgSize f n).offset = f.size ∧
        DoneInv msgSize f (run msgSize f n))) := by
  induction n with
  | zero => simp [run, initStream]
  | succ n ih =>
    obtain ⟨hf, hoff, hcase⟩ := ih
    have hstep : run msgSize f (n + 1) = sendMessage msgSize (run msgSize f n) false := rfl
    refine ⟨?_, ?_, ?_⟩
    · rw [hstep, sendMessage_file]; exact hf
    · have hb := sendMessage_offset_le_size msgSize (run msgSize f n) false (by rw [hf]; exact hoff)
      rw [sendMessage_file, hf] at hb
      rw [hstep]; exact hb
    · rcases hcase with ⟨h1, h2, h3⟩ | ⟨h1, h2⟩ | ⟨h1, h2, h3⟩
      · right; left
        rw [hstep, sendMessage_fileinfo_step msgSize _ h1]
        refine ⟨rfl, [], ?_, ?_, ?_⟩
        · simp [h3, hf]
        · simp [h2]
        · simp
      · by_cases hsz : f.size ≤ (run msgSize f n).offset
        · right; right
          have heq : (run msgSize f n).offset = f.size := le_antisymm hoff hsz
          rw [hstep, sendMessage_send_done msgSize _ h1 (by rw [hf]; exact hsz)]
          obtain ⟨ps, hsent, hjoin, hlen⟩ := h2
          refine ⟨rfl, heq, ps, ?_, ?_, hlen⟩
          · simp [hsent]
          · rw [hjoin, heq]
            have : f.size = f.data.length := rfl
            rw [this, List.take_length]
        · right; left
          rw [hstep, sendMessage_send_chunk msgSize _ h1 (by simpa [hf] using hsz)]
          obtain ⟨ps, hsent, hjoin, hlen⟩ := h2
          refine ⟨rfl, ps ++ [(((run msgSize f n).file.data.drop (run msgSize f n).offset).take
            (min ((run msgSize f n).offset + msgSize) (run msgSize f n).file.size
              - (run msgSize f n).offset))], ?_, ?_, ?_⟩
          · simp [hsent]
          · simp only [List.flatten_append, List.flatten_cons, List.flatten_nil,
              List.append_nil, hjoin, hf]
            have hof : (run msgSize f n).offset ≤ f.data.length := hoff
            have hmin : min ((run msgSize f n).offset + msgSize) f.size
                = (run msgSize f n).offset
                  + (min ((run msgSize f n).offset + msgSize) f.size
                      - (run msgSize f n).offset) := by
              have : (run msgSize f n).offset ≤ min ((run msgSize f n).offset + msgSize) f.size := by
                have hlt : (run msgSize f n).offset < f.size := Nat.lt_of_not_le hsz
                omega
              omega
            rw [← List.take_add]
            rw [← hmin]
          · intro p hp
            rcases List.mem_append.mp hp with hp1 | hp2
            · exact hlen p hp1
            · have hpe : p = ((run msgSize f n).file.data.drop (run msgSize f n).offset).take
                (min ((run msgSize f n).offset + msgSize) (run msgSize f n).file.size
                  - (run msgSize f n).offset) := by simpa using hp2
              subst hpe
              have := List.length_take
                (min ((run msgSize f n).offset + msgSize) (run msgSize f n).file.size
                  - (run msgSize f n).offset)
                ((run msgSize f n).file.data.drop (run msgSize f n).offset)
              omega
      · right; right
        rw [hstep, sendMessage_of_done msgSize _ false h1]
        exact ⟨h1, h2, h3⟩

/-- With a positive message size, an error-free run in state send always
reaches state done. -/
lemma run_reaches_done (msgSize : Nat) (f : File) (hm : 0 < msgSize) :
    ∀ k n, (run msgSize f n).state = StreamState.send →
      f.size - (run msgSize f n).offset ≤ k →
      ∃ m, (run msgSize f m).state = StreamState.done := by
  intro k
  induction k with
  | zero =>
    intro n hst hk
    have hf := (run_inv msgSize f n).1
    have hoff := (run_inv msgSize f n).2.1
    have hsz : f.size ≤ (run msgSize f n).offset := by omega
    refine ⟨n + 1, ?_⟩
    have hstep : run msgSize f (n + 1) = sendMessage msgSize (run msgSize f n) false := rfl
    rw [hstep, sendMessage_send_done msgSize _ hst (by simpa [hf] using hsz)]
  | succ k ih =>
    intro n hst hk
    have hf := (run_inv msgSize f n).1
    have hoff := (run_inv msgSize f n).2.1
    by_cases hsz : f.size ≤ (run msgSize f n).offset
    · refine ⟨n + 1, ?_⟩
      have hstep : run msgSize f (n + 1) = sendMessage msgSize (run msgSize f n) false := rfl
      rw [hstep, sendMessage_send_done msgSize _ hst (by simpa [hf] using hsz)]
    · apply ih (n + 1)
      · have hstep : run msgSize f (n + 1) = sendMessage msgSize (run msgSize f n) false := rfl
        rw [hstep, sendMessage_send_chunk msgSize _ hst (by simpa [hf] using hsz)]
      · have hstep : run msgSize f (n + 1) = sendMessage msgSize (run msgSize f n) false := rfl
        have hnew : (run msgSize f (n + 1)).offset
            = min ((run msgSize f n).offset + msgSize) f.size := by
          rw [hstep, sendMessage_send_chunk msgSize _ hst (by simpa [hf] using hsz)]
          simp [hf]
        omega

/-- C1: for every file, with a positive configured maximum message size,
an error-free run drives the channel transcript to exactly: one fileinfo
control message carrying the file's name, size and type first, then
binary payload messages each at most msgSize long whose in-order
concatenation is the file's bytes, then exactly one done control message
last. -/
theorem fileStream_message_sequence (msgSize : Nat) (f : File) (hm : 0 < msgSize) :
    (∀ n, (run msgSize f n).state = StreamState.done →
      ∃ ps : List (List Nat),
        (run msgSize f n).sent
          = Msg.fileinfoMsg f.name f.size f.type :: (ps.map Msg.payload ++ [Msg.doneMsg]) ∧
        ps.flatten = f.data ∧
        ∀ p ∈ ps, p.length ≤ msgSize) ∧
    ∃ n, (run msgSize f n).state = StreamState.done := by
  constructor
  · intro n hdone
    obtain ⟨hf, hoff, hcase⟩ := run_inv msgSize f n
    rcases hcase with ⟨ha, _, _⟩ | ⟨ha, _⟩ | ⟨ha, hb, hc⟩
    · rw [hdone] at ha; simp at ha
    · rw [hdone] at ha; simp at ha
    · exact hc
  · have hone : run msgSize f 1 = sendMessage msgSize (run msgSize f 0) false := rfl
    have h1 : (run msgSize f 1).state = StreamState.send := by
      rw [hone, sendMessage_fileinfo_step msgSize _ rfl]
    have h0 : (run msgSize f 1).offset = 0 := by
      rw [hone, sendMessage_fileinfo_step msgSize _ rfl]
      simp [run, initStream]
    exact run_reaches_done msgSize f hm f.size 1 h1 (by omega)

/-- Witness for fileStream_message_sequence with message size 1 on a
concrete two-byte file. -/
theorem fileStream_message_sequence_witness :
    0 < 1 ∧
    ((∀ n, (run 1 (File.mk "a" "t" [5, 6]) n).state = StreamState.done →
      ∃ ps : List (List Nat),
        (run 1 (File.mk "a" "t" [5, 6]) n).sent
          = Msg.fileinfoMsg (File.mk "a" "t" [5, 6]).name (File.mk "a" "t" [5, 6]).size
              (File.mk "a" "t" [5, 6]).type :: (ps.map Msg.payload ++ [Msg.doneMsg]) ∧
        ps.flatten = (File.mk "a" "t" [5, 6]).data ∧
        ∀ p ∈ ps, p.length ≤ 1) ∧
      ∃ n, (run 1 (File.mk "a" "t" [5, 6]) n).state = StreamState.done) :=
  ⟨Nat.one_pos, fileStream_message_sequence 1 (File.mk "a" "t" [5, 6]) Nat.one_pos⟩

/- Dropper-side helper lemmas. -/

lemma foldl_add_offset (l : List FileStream) (n : Nat) :
    l.foldl (fun acc fs => acc + fs.offset) n = n + (l.map FileStream.offset).sum := by
  induction l generalizing n with
  | nil => simp
  | cons fs rest ih =>
    simp only [List.foldl_cons, List.map_cons, List.sum_cons, ih]
    omega

lemma bytesSent_eq (d : Dropper) :
    Dropper.bytesSent d = (d.fileStreams.map FileStream.offset).sum := by
  simpa using foldl_add_offset d.fileStreams 0

lemma updateStream_sum_mono (msgSize : Nat) (l : List FileStream) (i : Nat) (fail : Bool) :
    (l.map FileStream.offset).sum
      ≤ ((updateStream msgSize l i fail).map FileStream.offset).sum := by
  induction l generalizing i with
  | nil => simp [updateStream]
  | cons fs rest ih =>
    cases i with
    | zero =>
      simp only [updateStream, List.map_cons, List.sum_cons]
      have hm := sendMessage_offset_mono msgSize fs fail
      omega
    | succ n =>
      simp only [updateStream, List.map_cons, List.sum_cons]
      have hm := ih n
      omega

lemma dropperCheck_fileStreams (d : Dropper) :
    (dropperCheck d).fileStreams = d.fileStreams := by
  unfold dropperCheck
  split_ifs <;> rfl

lemma handlePeerEvent_fileStreams (d : Dropper) (e : PeerEvent) :
    (handlePeerEvent d e).fileStreams = d.fileStreams := by
  cases e <;> rfl

lemma any_promiseRejected (l : List FileStream) : l.any promiseRejected = false := by
  induction l with
  | nil => rfl
  | cons fs rest ih => simp [List.any_cons, promiseRejected, ih]

lemma dropperCheck_dispatched (d : Dropper) :
    (dropperCheck d).dispatched = d.dispatched ∨
    (dropperCheck d).dispatched = d.dispatched ++ ["done"] := by
  unfold dropperCheck
  rw [any_promiseRejected]
  split_ifs <;> simp_all

lemma dropperCheck_of_not_all (d : Dropper)
    (hall : d.fileStreams.all promiseResolved = false) : dropperCheck d = d := by
  unfold dropperCheck
  rw [any_promiseRejected, hall]
  simp

lemma failed_not_dispatched_step (msgSize : Nat) (d : Dropper) (ev : DEvent)
    (h : "failed" ∉ d.dispatched) : "failed" ∉ (dropperStep msgSize d ev).dispatched := by
  cases ev with
  | streamEvent i fail =>
    simp only [dropperStep]
    rcases dropperCheck_dispatched
        { d with fileStreams := updateStream msgSize d.fileStreams i fail } with h1 | h1 <;>
      rw [h1]
    · exact h
    · intro hmem
      rcases List.mem_append.mp hmem with hc | hc
      · exact h hc
      · simp at hc
  | peerEvent e =>
    cases e <;> simp only [dropperStep, handlePeerEvent] <;> intro hmem <;>
      rcases List.mem_append.mp hmem with hc | hc <;> first | exact h hc | simp at hc

lemma failed_not_dispatched_run (msgSize : Nat) (d : Dropper) (evs : List DEvent)
    (h : "failed" ∉ d.dispatched) : "failed" ∉ (runDropper msgSize d evs).dispatched := by
  induction evs generalizing d with
  | nil => exact h
  | cons ev rest ih => exact ih _ (failed_not_dispatched_step msgSize d ev h)

lemma updateStream_localDone (msgSize : Nat) (l : List FileStream) (i : Nat) (fail : Bool)
    (h : ∀ fs ∈ l, fs.localDone = 0) :
    ∀ fs ∈ updateStream msgSize l i fail, fs.localDone = 0 := by
  induction l generalizing i with
  | nil => simp [updateStream]
  | cons a rest ih =>
    cases i with
    | zero =>
      intro fs hfs
      simp only [updateStream, List.mem_cons] at hfs
      rcases hfs with rfl | hfs
      · rw [sendMessage_localDone]
        exact h a (List.mem_cons_self a rest)
      · exact h fs (List.mem_cons_of_mem a hfs)
    | succ n =>
      intro fs hfs
      simp only [updateStream, List.mem_cons] at hfs
      rcases hfs with rfl | hfs
      · exact h fs (List.mem_cons_self fs rest)
      · exact ih n (fun g hg => h g (List.mem_cons_of_mem a hg)) fs hfs

lemma updateStream_ne_nil (msgSize : Nat) (l : List FileStream) (i : Nat) (fail : Bool)
    (h : l ≠ []) : updateStream msgSize l i fail ≠ [] := by
  cases l with
  | nil => simp at h
  | cons a rest => cases i <;> simp [updateStream]

lemma all_resolved_false (l : List FileStream) (hne : l ≠ [])
    (h : ∀ fs ∈ l, fs.localDone = 0) : l.all promiseResolved = false := by
  cases l with
  | nil => simp at hne
  | cons a rest =>
    have ha := h a (List.mem_cons_self a rest)
    simp [List.all_cons, promiseResolved, ha]

lemma no_terminal_dispatch_step (msgSize : Nat) (d : Dropper) (ev : DEvent)
    (hne : d.fileStreams ≠ []) (hz : ∀ fs ∈ d.fileStreams, fs.localDone = 0)
    (hf : "failed" ∉ d.dispatched) (hd : "done" ∉ d.dispatched) :
    (dropperStep msgSize d ev).fileStreams ≠ [] ∧
    (∀ fs ∈ (dropperStep msgSize d ev).fileStreams, fs.localDone = 0) ∧
    "failed" ∉ (dropperStep msgSize d ev).dispatched ∧
    "done" ∉ (dropperStep msgSize d ev).dispatched := by
  cases ev with
  | streamEvent i fail =>
    have hne2 := updateStream_ne_nil msgSize d.fileStreams i fail hne
    have hz2 := updateStream_localDone msgSize d.fileStreams i fail hz
    have heq : dropperStep msgSize d (DEvent.streamEvent i fail)
        = { d with fileStreams := updateStream msgSize d.fileStreams i fail } := by
      simp only [dropperStep]
      exact dropperCheck_of_not_all _ (all_resolved_false _ hne2 hz2)
    rw [heq]
    exact ⟨hne2, hz2, hf, hd⟩
  | peerEvent e =>
    cases e <;>
      refine ⟨hne, hz, ?_, ?_⟩ <;> intro hmem <;>
      rcases List.mem_append.mp hmem with hc | hc <;>
      first
        | exact hf hc
        | exact hd hc
        | simp at hc

lemma no_terminal_dispatch_run (msgSize : Nat) (d : Dropper) (evs : List DEvent)
    (hne : d.fileStreams ≠ []) (hz : ∀ fs ∈ d.fileStreams, fs.localDone = 0)
    (hf : "failed" ∉ d.dispatched) (hd : "done" ∉ d.dispatched) :
    "failed" ∉ (runDropper msgSize d evs).dispatched ∧
    "done" ∉ (runDropper msgSize d evs).dispatched := by
  induction evs generalizing d with
  | nil => exact ⟨hf, hd⟩
  | cons ev rest ih =>
    obtain ⟨h1, h2, h3, h4⟩ := no_terminal_dispatch_step msgSize d ev hne hz hf hd
    exact ih _ h1 h2 h3 h4

/-- C10: the coordinator never dispatches failed, over every batch and
every event sequence with arbitrary injected sender errors: an error is
swallowed inside the sender's own handler (its local done count is
untouched), the per-stream promise is built with a reject function no
code path ever invokes, so Promise.all never rejects and the catch
branch of awaitFileStreams that dispatches failed is unreachable. -/
theorem dropper_never_failed (msgSize : Nat) (files : List File) (evs : List DEvent) :
    "failed" ∉ (runDropper msgSize (mkDropper files) evs).dispatched ∧
    ∀ (fs : FileStream) (fail : Bool),
      (sendMessage msgSize fs fail).localDone = fs.localDone ∧
      promiseRejected fs = false := by
  constructor
  · apply failed_not_dispatched_run
    unfold mkDropper
    rcases dropperCheck_dispatched
        { fileStreams := files.map initStream,
          id := none,
          fileinfo := files.map (fun f => FileInfoRec.mk f.name f.size f.type),
          totalSize := (files.map File.size).sum,
          dispatched := [],
          settled := false } with h1 | h1 <;> rw [h1] <;> simp
  · exact fun fs fail => ⟨sendMessage_localDone msgSize fs fail, rfl⟩

/-- C3 (code evaluation): one-file batch, message size 1, file bytes
[10, 20]; the first event sends fileinfo, the second suffers a chunk
read failure.  The stream is left stalled in state sending, and no
continuation of the run can ever make the coordinator dispatch failed —
nor done — because the per-stream promise's reject is never invoked and
the stream's local done event never fires.  The spec instead demands
one aggregate failed dispatch for this scenario. -/
theorem dropper_chunk_failure_no_failed :
    ((runDropper 1 (mkDropper [File.mk "b" "t" [10, 20]])
        [DEvent.streamEvent 0 false, DEvent.streamEvent 0 true]).fileStreams.map
      FileStream.state) = [StreamState.sending] ∧
    ∀ evs : List DEvent,
      "failed" ∉ (runDropper 1 (runDropper 1 (mkDropper [File.mk "b" "t" [10, 20]])
          [DEvent.streamEvent 0 false, DEvent.streamEvent 0 true]) evs).dispatched ∧
      "done" ∉ (runDropper 1 (runDropper 1 (mkDropper [File.mk "b" "t" [10, 20]])
          [DEvent.streamEvent 0 false, DEvent.streamEvent 0 true]) evs).dispatched := by
  constructor
  · decide
  · intro evs
    exact no_terminal_dispatch_run 1
      (runDropper 1 (mkDropper [File.mk "b" "t" [10, 20]])
        [DEvent.streamEvent 0 false, DEvent.streamEvent 0 true])
      evs (by decide) (by decide) (by decide) (by decide)

/-- C8: bytesSent returns exactly the sum of offset over all of the
coordinator's streams, recomputed from the live stream states at call
time, and it is non-decreasing across every system step (any channel
event on any stream, with or without an injected error, and any peer
event). -/
theorem dropper_bytesSent_correct (d : Dropper) :
    Dropper.bytesSent d = (d.fileStreams.map FileStream.offset).sum ∧
    ∀ (msgSize : Nat) (ev : DEvent),
      Dropper.bytesSent d ≤ Dropper.bytesSent (dropperStep msgSize d ev) := by
  refine ⟨bytesSent_eq d, ?_⟩
  intro msgSize ev
  rw [bytesSent_eq, bytesSent_eq]
  cases ev with
  | streamEvent i fail =>
    simp only [dropperStep, dropperCheck_fileStreams]
    exact updateStream_sum_mono msgSize d.fileStreams i fail
  | peerEvent e =>
    simp only [dropperStep, handlePeerEvent_fileStreams]
    exact le_refl _

/-- C9 (counterexample): the registered signal is not re-emitted under
its own name: with a one-file batch, delivering registered to the
coordinator dispatches an event named idchanged, not registered, though
the identifier is captured into the id field. -/
theorem dropper_registered_renamed :
    (handlePeerEvent (mkDropper [File.mk "a" "t" [1]])
        (PeerEvent.registered "xyz")).dispatched = ["idchanged"] ∧
    "idchanged" ≠ "registered" ∧
    (handlePeerEvent (mkDropper [File.mk "a" "t" [1]])
        (PeerEvent.registered "xyz")).id = some "xyz" := by
  refine ⟨by decide, by decide, by decide⟩

/-- C9 (amended): connected and disconnected are re-emitted verbatim to
the coordinator's observers; registered is re-emitted under the name
idchanged, with the identifier captured into the coordinator's id
field. -/
theorem dropper_relay_events (d : Dropper) (i : String) :
    (handlePeerEvent d (PeerEvent.registered i)).dispatched
        = d.dispatched ++ ["idchanged"] ∧
    (handlePeerEvent d (PeerEvent.registered i)).id = some i ∧
    (handlePeerEvent d PeerEvent.connected).dispatched
        = d.dispatched ++ ["connected"] ∧
    (handlePeerEvent d PeerEvent.disconnected).dispatched
        = d.dispatched ++ ["disconnected"] :=
  ⟨rfl, rfl, rfl, rfl⟩
